import Mathlib

/-!
Shallow embedding of the tablet-desk-clock script (`clock.js`).

Modelling conventions:

* JavaScript timestamps (`Date.getTime()`, `Date.now()`) are integers
  (milliseconds); we model them as `ℤ`.
* A JS `Date` is modelled by its timestamp on a linear *local-time* axis
  (no DST discontinuities, months elided): the field accessors
  `getHours`/`getMinutes`/`getSeconds`/`getMilliseconds` decompose the
  timestamp by Euclidean div/mod exactly as the local calendar fields do,
  and `getDate`/`setDate` work on the day index of that axis, so that the
  script's only use of them, `next.setDate(next.getDate() + 1)`, advances
  the date component by one calendar day.
* A JS field setter `d.setX(v)` replaces the field X while keeping every
  finer field, renormalising the whole timestamp (so an out-of-range `v`
  carries over into coarser fields, as JS does; e.g.
  `setMilliseconds(119999)` advances the date by 1 minute 59.999 s).
* JSON values produced by `JSON.parse` are modelled by the inductive
  `JsonValue`, with `jsTypeof` reproducing JavaScript's `typeof` on them
  (in particular `typeof null == "object"` and arrays are `"object"`).
* A function that can `throw` is modelled with `Option`, `none` being the
  thrown exception.
-/

/-! ### JS Date model (local-time axis, milliseconds) -/

/-- `d.getHours()` for a date with timestamp `t` on the local-time axis. -/
def getHours (t : ℤ) : ℤ := t / 3600000 % 24

/-- `d.getMinutes()`. -/
def getMinutes (t : ℤ) : ℤ := t / 60000 % 60

/-- `d.getSeconds()`. -/
def getSeconds (t : ℤ) : ℤ := t / 1000 % 60

/-- `d.getMilliseconds()`. -/
def getMilliseconds (t : ℤ) : ℤ := t % 1000

/-- Day index of `t` on the local-time axis; stands in for `d.getDate()`
(day-of-month), which the script only ever uses via
`next.setDate(next.getDate() + 1)`. -/
def getDate (t : ℤ) : ℤ := t / 86400000

/-- `d.setHours(h)`: replace the hours field, keep minutes/seconds/ms,
carrying an out-of-range `h` into the date. -/
def setHours (t h : ℤ) : ℤ := t + (h - getHours t) * 3600000

/-- `d.setMinutes(m)`. -/
def setMinutes (t m : ℤ) : ℤ := t + (m - getMinutes t) * 60000

/-- `d.setSeconds(s)`. -/
def setSeconds (t s : ℤ) : ℤ := t + (s - getSeconds t) * 1000

/-- `d.setMilliseconds(ms)`; an `ms ≥ 1000` carries over into seconds and
beyond, as in JS. -/
def setMilliseconds (t ms : ℤ) : ℤ := t + (ms - getMilliseconds t)

/-- `d.setDate(n)` on the linear model: move to day index `n`, keeping the
time of day. -/
def setDate (t n : ℤ) : ℤ := t + (n - getDate t) * 86400000

/-! ### CorrectedClock -/

/-- `getCorrectedDatetime()`: `new Date(Date.now() + timeOffset)`, as a
timestamp.  `clientNow` is `Date.now()`, `timeOffset` the module-level
offset variable. -/
def getCorrectedDatetime (clientNow timeOffset : ℚ) : ℚ :=
  clientNow + timeOffset

/-- The body of the `updateTimeOffset` success callback, numeric case:
`timeOffset = data - Date.now(); if (Math.abs(timeOffset) < 50) timeOffset = 0;`.
Returns the new value of `timeOffset`. -/
def timeOffsetOfServer (data clientNow : ℚ) : ℚ :=
  let timeOffset := data - clientNow
  if |timeOffset| < 50 then 0 else timeOffset

/-! ### twoDigits -/

/-- A JavaScript value passed to `twoDigits`.  Values with
`typeof v == "number"` are a rational (finite doubles), `NaN` or `±∞`;
everything else is collapsed into `nonNumber`. -/
inductive JsNumArg where
  | num (q : ℚ)
  | nan
  | posInf
  | negInf
  | nonNumber
deriving DecidableEq

/-- `twoDigits(n)`: throws (`none`) unless `n` is an integral number in
`[0, 100)`; otherwise returns `(n < 10 ? "0" : "") + n`.
`NaN` throws because `Math.floor(NaN) != NaN` holds in JS;
`∞` throws via `n >= 100`, `-∞` via `n < 0`.
In the returned branch `n` is integral, so its decimal string is that of
`⌊n⌋`. -/
def twoDigits : JsNumArg → Option String
  | .nonNumber => none
  | .nan => none
  | .posInf => none
  | .negInf => none
  | .num q =>
    if q < 0 ∨ 100 ≤ q ∨ (⌊q⌋ : ℚ) ≠ q then none
    else some ((if q < 10 then "0" else "") ++ Nat.repr (⌊q⌋).toNat)

/-! ### scheduleCall -/

/-- What one activation of `scheduleCall(func, wake)` does when the
corrected clock reads `now`: `delay = wake - now; if (delay <= 0) func();
else setTimeout(recurse, delay)`. -/
inductive SchedAction where
  | invoke
  | setTimer (delay : ℤ)
deriving DecidableEq

/-- One activation of `scheduleCall(func, wake)` at corrected time `now`. -/
def scheduleCallStep (wake now : ℤ) : SchedAction :=
  let delay := wake - now
  if delay ≤ 0 then .invoke else .setTimer delay

/-- A whole run of `scheduleCall(func, wake)`: `times` lists the corrected
clock readings at the successive activations (the head is the original
call; each later entry is the reading when the armed timer fires, chosen
by the environment — timers may fire late, and the re-check exists
precisely because an activation may still be early).  Returns the
corrected time at which `func` was invoked, if the run invoked it. -/
def scheduleCallRun (wake : ℤ) : List ℤ → Option ℤ
  | [] => none
  | now :: rest =>
    match scheduleCallStep wake now with
    | .invoke => some now
    | .setTimer _ => scheduleCallRun wake rest

/-! ### getAndProcessJson (RetryingFetcher)

The network is modelled by `outcomes : ℕ → Option α`: attempt number `r`
(the `retryCount` argument of that attempt) either returns a parsed
payload (`some`) within the timeout or times out (`none`).  The script's
`xhr.onload`/`xhr.ontimeout` handlers become the two match arms. -/

/-- The back-off delay scheduled by the `ontimeout` handler of the attempt
with the given `retryCount`: `Math.pow(2, retryCount) * 1000` ms. -/
def backoffDelay (retryCount : ℕ) : ℕ := 2 ^ retryCount * 1000

/-- `getAndProcessJson(url, timeout, retryCount, func)`: returns the
payload `func` is called with (`none` when the retries are exhausted and
`func` never fires). -/
def getAndProcessJson (outcomes : ℕ → Option α) (retryCount : ℕ) : Option α :=
  match outcomes retryCount with
  | some payload => some payload
  | none =>
    if _h : retryCount < 9 then getAndProcessJson outcomes (retryCount + 1)
    else none
termination_by 9 - retryCount
decreasing_by omega

/-- Number of XHR attempts a run of `getAndProcessJson` starting at the
given `retryCount` performs. -/
def fetchAttempts (outcomes : ℕ → Option α) (retryCount : ℕ) : ℕ :=
  match outcomes retryCount with
  | some _ => 1
  | none =>
    if _h : retryCount < 9 then 1 + fetchAttempts outcomes (retryCount + 1)
    else 1
termination_by 9 - retryCount
decreasing_by omega

/-- The back-off delays scheduled, in order, by a run of
`getAndProcessJson` starting at the given `retryCount`. -/
def fetchDelays (outcomes : ℕ → Option α) (retryCount : ℕ) : List ℕ :=
  match outcomes retryCount with
  | some _ => []
  | none =>
    if _h : retryCount < 9 then
      backoffDelay retryCount :: fetchDelays outcomes (retryCount + 1)
    else []
termination_by 9 - retryCount
decreasing_by omega

/-! ### JSON values and typeof -/

/-- A value produced by `JSON.parse`. -/
inductive JsonValue where
  | jNull
  | jBool (b : Bool)
  | jNum (q : ℚ)
  | jStr (s : String)
  | jArr (elems : List JsonValue)
  | jObj (fields : List (String × JsonValue))

/-- JavaScript `typeof` on a parsed JSON value.  `null` and arrays are
`"object"`, like actual objects. -/
def jsTypeof : JsonValue → String
  | .jNull => "object"
  | .jBool _ => "boolean"
  | .jNum _ => "number"
  | .jStr _ => "string"
  | .jArr _ => "object"
  | .jObj _ => "object"

/-- First binding of a key in an object's field list (JS property lookup;
parsed JSON objects keep the last duplicate, but our maps have distinct
keys so first-match is equivalent and simpler). -/
def lookupField (key : String) : List (String × JsonValue) → Option JsonValue
  | [] => none
  | (k, v) :: rest => if k = key then some v else lookupField key rest

/-! ### updateTimeOffset (OffsetCalibrator) -/

/-- The success callback of `updateTimeOffset()`: writes the offset only
when `typeof data == "number"`; any other payload shape leaves the
module-level `timeOffset` untouched.  (`JSON.parse` cannot yield `NaN` or
`±∞`, so a JSON number is a plain rational.)  Returns the value of
`timeOffset` after the callback. -/
def updateTimeOffsetCallback (data : JsonValue) (clientNow oldOffset : ℚ) : ℚ :=
  match data with
  | .jNum q => timeOffsetOfServer q clientNow
  | _ => oldOffset

/-! ### doMorningRequest (Morning module) -/

mutual

/-- `String(v)`, the coercion `document.createTextNode` applies to a
non-string argument.  Only the `jStr` case is load-bearing for any theorem
(the reminders payload carries message strings); the decimal rendering of
a JS number is approximated by Lean's rational rendering. -/
def jsToString : JsonValue → String
  | .jNull => "null"
  | .jBool b => cond b "true" "false"
  | .jNum q => toString q
  | .jStr s => s
  | .jArr elems => String.intercalate "," (jsToStringList elems)
  | .jObj _ => "[object Object]"

/-- `String` applied elementwise (JS `Array.prototype.toString` joins the
coerced elements with commas). -/
def jsToStringList : List JsonValue → List String
  | [] => []
  | v :: rest => jsToString v :: jsToStringList rest

end

/-- `key in data` for `data` an object or array (`in` on any other value
throws, which the caller handles).  For arrays the own properties are the
element indices and `length`; prototype-inherited names are ignored, which
is sound for the digit-string date keys the script uses. -/
def jsHasProperty (key : String) : JsonValue → Bool
  | .jObj fields => (lookupField key fields).isSome
  | .jArr elems => (key.toNat?.elim false (· < elems.length)) || key == "length"
  | _ => false

/-- `data[key]` (`none` = `undefined`). -/
def jsGetProperty (key : String) : JsonValue → Option JsonValue
  | .jObj fields => lookupField key fields
  | .jArr elems =>
    if key == "length" then some (.jNum elems.length)
    else key.toNat?.bind (fun i => elems.get? i)
  | _ => none

/-- The `var msgs = data[key]; ...` tail of the morning callback:
`if (msgs.length == 0) addMessage("(None)"); else for (...) addMessage(msgs[i]);`.
For a `msgs` that is neither an array nor a string, `msgs.length` is
`undefined`, so `undefined == 0` is false and the loop guard
`i < undefined` is immediately false: no message is added.  A string
`msgs` has a `length` and index properties yielding one-character
strings. -/
def displayMessages : JsonValue → List String
  | .jArr elems =>
    if elems.length = 0 then ["(None)"] else jsToStringList elems
  | .jStr s =>
    if s.length = 0 then ["(None)"] else s.data.map (fun c => String.mk [c])
  | _ => []

/-- The object/array branch body of the morning callback:
`if (key in data) { ... } else addMessage("(Data missing)")`. -/
def morningDisplay (data : JsonValue) (key : String) : List String :=
  if jsHasProperty key data then displayMessages ((jsGetProperty key data).getD .jNull)
  else ["(Data missing)"]

/-- The date key the morning callback builds from the corrected `Date`:
`d.getFullYear() + (d.getMonth() + 1 < 10 ? "0" : "") + (d.getMonth() + 1)
 + (d.getDate() < 10 ? "0" : "") + d.getDate()`
(`month` is the 0-based `getMonth()` value). -/
def morningKey (year month date : ℕ) : String :=
  Nat.repr year ++ (if month + 1 < 10 then "0" else "") ++ Nat.repr (month + 1)
    ++ (if date < 10 then "0" else "") ++ Nat.repr date

/-- The success callback of `doMorningRequest()`: the list of reminder
lines left in the DOM after the callback (each previous content is
cleared first), or `none` when the callback throws (`key in data` with
`data == null` raises a `TypeError`). -/
def doMorningRequest (data : JsonValue) (key : String) : Option (List String) :=
  if jsTypeof data ≠ "object" then some ["(Error)"]
  else
    match data with
    | .jNull => none
    | d => some (morningDisplay d key)

/-! ### Wake-time computations -/

/-- `autoUpdateWallpaper`'s next wake time: today at 05:00:00.000 local,
rolled to tomorrow when `next.getTime() <= now.getTime()`. -/
def autoUpdateWallpaperNext (now : ℤ) : ℤ :=
  let next := setMilliseconds (setSeconds (setMinutes (setHours now 5) 0) 0) 0
  if next ≤ now then setDate next (getDate next + 1) else next

/-- `scheduleNextMorning`'s wake time: today at 07:00:00.000 local, rolled
to tomorrow when `next.getTime() < now.getTime()` (note: strict). -/
def scheduleNextMorningNext (now : ℤ) : ℤ :=
  let next := setMilliseconds (setSeconds (setMinutes (setHours now 7) 0) 0) 0
  if next < now then setDate next (getDate next + 1) else next

/-- `autoUpdateWeather`'s next wake time: current hour at minute 4,
second 0, with `jitter` the truncated value of
`Math.random() * 2 * 60 * 1000` (so `0 ≤ jitter < 120000`; values of
1000 ms and above carry over into the seconds/minutes fields), the hour
advanced by one when
`next.getTime() < now.getTime() || next.getHours() == now.getHours() && now.getMinutes() >= 4`. -/
def autoUpdateWeatherNext (now jitter : ℤ) : ℤ :=
  let next := setMilliseconds (setSeconds (setMinutes now 4) 0) jitter
  if next < now ∨ (getHours next = getHours now ∧ 4 ≤ getMinutes now) then
    setHours next (getHours next + 1)
  else next

/-! ### Spec-side helper definitions (used only in theorem statements) -/

/-- The instant "day of `now`, at `h` hours 0 min 0 s 0 ms", i.e. "today at
`h`:00:00.000" in the spec's words. -/
def specTodayAtHour (now h : ℤ) : ℤ := 86400000 * (now / 86400000) + h * 3600000

/-- The instant "hour of `now`, at minute 4, second 0, plus `jitter` ms". -/
def specHourAtMinute4 (now jitter : ℤ) : ℤ := 3600000 * (now / 3600000) + 240000 + jitter

/-- Lookup in a reminders map given as an association list of
YYYYMMDD keys to message sequences. -/
def lookupReminders (key : String) : List (String × List String) → Option (List String)
  | [] => none
  | (k, v) :: rest => if k = key then some v else lookupReminders key rest

/-- A reminders map, embedded as the JSON object `JSON.parse` would
produce from it: each message sequence becomes an array of strings. -/
def remindersJson (m : List (String × List String)) : JsonValue :=
  .jObj (m.map (fun kv => (kv.1, .jArr (kv.2.map .jStr))))

/-- The argument contract of `twoDigits`: a number, integral, in
`[0, 100)`. -/
def TwoDigitsOk (v : JsNumArg) : Prop :=
  ∃ q : ℚ, v = .num q ∧ 0 ≤ q ∧ q < 100 ∧ (⌊q⌋ : ℚ) = q

/-! ## Theorems -/

/-- C2: when the corrected time `now` at the call satisfies `now ≥ wake`,
`scheduleCall` invokes the callback exactly once, synchronously in the
calling activation (the run result is `some now`, the call instant),
creates no timer (the step is `invoke`, not `setTimer`), and does no
further rescheduling (the result does not depend on any later activation
the environment might offer). -/
theorem scheduleCall_immediate (wake now : ℤ) (rest : List ℤ) (h : wake ≤ now) :
    scheduleCallStep wake now = .invoke ∧
    scheduleCallRun wake (now :: rest) = some now := by
  have hstep : scheduleCallStep wake now = .invoke := by
    simp only [scheduleCallStep, if_pos (by omega : wake - now ≤ 0)]
  exact ⟨hstep, by simp [scheduleCallRun, hstep]⟩

/-- Witness for C2 at `wake = 5`, `now = 10`. -/
theorem scheduleCall_immediate_witness :
    scheduleCallStep 5 10 = .invoke ∧ scheduleCallRun 5 [10] = some 10 :=
  scheduleCall_immediate 5 10 [] (by norm_num)

/-- Unfolding a `scheduleCall` run by one activation. -/
theorem scheduleCallRun_cons (wake now : ℤ) (rest : List ℤ) :
    scheduleCallRun wake (now :: rest) =
      if wake ≤ now then some now else scheduleCallRun wake rest := by
  by_cases h : wake ≤ now
  · rw [if_pos h]
    simp only [scheduleCallRun, scheduleCallStep, if_pos (by omega : wake - now ≤ 0)]
  · rw [if_neg h]
    simp only [scheduleCallRun, scheduleCallStep, if_neg (by omega : ¬ wake - now ≤ 0)]

/-- Any invocation produced by a `scheduleCall` run happens at a corrected
time `≥ wake`. -/
theorem scheduleCallRun_le (wake : ℤ) (ts : List ℤ) (τ : ℤ)
    (h : scheduleCallRun wake ts = some τ) : wake ≤ τ := by
  induction ts with
  | nil => simp [scheduleCallRun] at h
  | cons now rest ih =>
    rw [scheduleCallRun_cons] at h
    by_cases hc : wake ≤ now
    · rw [if_pos hc] at h
      injection h with h'
      omega
    · rw [if_neg hc] at h
      exact ih h

/-- A `scheduleCall` run invokes its callback as soon as some activation
happens at a corrected time `≥ wake`. -/
theorem scheduleCallRun_fires (wake : ℤ) (ts : List ℤ)
    (h : ∃ τ ∈ ts, wake ≤ τ) : (scheduleCallRun wake ts).isSome := by
  induction ts with
  | nil => simp at h
  | cons now rest ih =>
    rw [scheduleCallRun_cons]
    by_cases hc : wake ≤ now
    · simp [if_pos hc]
    · rw [if_neg hc]
      rcases h with ⟨τ, hmem, hτ⟩
      rcases List.mem_cons.1 hmem with rfl | hmem
      · exact absurd hτ hc
      · exact ih ⟨τ, hmem, hτ⟩

/-- C1: when the corrected time `now₀` at the call is strictly before
`wake`, the callback is never invoked at a corrected time before `wake`;
it is invoked as soon as some timer activation observes corrected time
`≥ wake`; and every activation that is still early re-evaluates the
deadline and re-arms a timer (with the freshly computed delay) instead of
invoking. -/
theorem scheduleCall_never_early_eventually (wake now₀ : ℤ) (rest : List ℤ)
    (_h₀ : now₀ < wake) :
    (∀ τ, scheduleCallRun wake (now₀ :: rest) = some τ → wake ≤ τ) ∧
    ((∃ τ ∈ rest, wake ≤ τ) →
      ∃ τ, scheduleCallRun wake (now₀ :: rest) = some τ ∧ wake ≤ τ) ∧
    (∀ now, now < wake → scheduleCallStep wake now = .setTimer (wake - now)) := by
  refine ⟨fun τ h => scheduleCallRun_le wake _ τ h, fun h => ?_, fun now hn => ?_⟩
  · have hs : (scheduleCallRun wake (now₀ :: rest)).isSome := by
      apply scheduleCallRun_fires
      rcases h with ⟨τ, hmem, hτ⟩
      exact ⟨τ, List.mem_cons_of_mem _ hmem, hτ⟩
    rcases Option.isSome_iff_exists.1 hs with ⟨τ, hτ⟩
    exact ⟨τ, hτ, scheduleCallRun_le wake _ τ hτ⟩
  · simp only [scheduleCallStep, if_neg (by omega : ¬ wake - now ≤ 0)]

/-- Witness for C1 at `wake = 100`, initial corrected time `50`, with the
armed timer firing at corrected time `120`. -/
theorem scheduleCall_never_early_eventually_witness :
    ∃ τ, scheduleCallRun 100 [50, 120] = some τ ∧ 100 ≤ τ :=
  (scheduleCall_never_early_eventually 100 50 [120] (by norm_num)).2.1
    ⟨120, by simp, by norm_num⟩

/-- C4: calibrating from a server instant and the local instant at request
completion stores exactly `server - local` when `|server - local| ≥ 50` ms
and clamps the offset to 0 when `|server - local| < 50` ms; a subsequent
corrected reading is the local wall-clock reading plus the stored
offset. -/
theorem calibrate_offset_spec (server localT : ℚ) :
    (|server - localT| < 50 → timeOffsetOfServer server localT = 0) ∧
    (50 ≤ |server - localT| → timeOffsetOfServer server localT = server - localT) ∧
    (∀ clientNow : ℚ,
      getCorrectedDatetime clientNow (timeOffsetOfServer server localT)
        = clientNow + timeOffsetOfServer server localT) := by
  refine ⟨fun h => ?_, fun h => ?_, fun _ => rfl⟩
  · simp [timeOffsetOfServer, if_pos h]
  · simp [timeOffsetOfServer, if_neg (not_lt.2 h)]

/-- Witness for C4: calibration at `server = 100, local = 0` (offset kept)
and at `server = 20, local = 0` (offset clamped to 0). -/
theorem calibrate_offset_spec_witness :
    timeOffsetOfServer 100 0 = 100 - 0 ∧ timeOffsetOfServer 20 0 = 0 :=
  ⟨(calibrate_offset_spec 100 0).2.1 (by norm_num),
   (calibrate_offset_spec 20 0).1 (by norm_num)⟩

/-- C10: a time payload that is not a number (`typeof data != "number"`)
leaves the stored offset exactly as it was, so corrected time is
unperturbed.  (That the offset is written nowhere else is a structural
fact of the source: `timeOffset` is assigned only inside this callback.) -/
theorem updateTimeOffset_bad_payload (data : JsonValue) (clientNow oldOffset : ℚ)
    (h : jsTypeof data ≠ "number") :
    updateTimeOffsetCallback data clientNow oldOffset = oldOffset ∧
    getCorrectedDatetime clientNow (updateTimeOffsetCallback data clientNow oldOffset)
      = getCorrectedDatetime clientNow oldOffset := by
  cases data <;> simp_all [jsTypeof, updateTimeOffsetCallback]

/-- Witness for C10: a string payload with prior offset 5 leaves the
offset at 5. -/
theorem updateTimeOffset_bad_payload_witness :
    updateTimeOffsetCallback (.jStr "oops") 0 5 = 5 ∧
    getCorrectedDatetime 0 (updateTimeOffsetCallback (.jStr "oops") 0 5)
      = getCorrectedDatetime 0 5 :=
  updateTimeOffset_bad_payload (.jStr "oops") 0 5 (by decide)

/-- C5: the wallpaper job's next wake time is today at 05:00:00.000 when
that instant is strictly in the future, and tomorrow at 05:00:00.000
otherwise; in particular 05:00:00.001 rolls to the next day and
04:59:00.000 stays on the same day. -/
theorem autoUpdateWallpaper_next (now : ℤ) :
    (autoUpdateWallpaperNext now =
      if now < specTodayAtHour now 5 then specTodayAtHour now 5
      else specTodayAtHour now 5 + 86400000) ∧
    autoUpdateWallpaperNext (5 * 3600000 + 1) = 86400000 + 5 * 3600000 ∧
    autoUpdateWallpaperNext (4 * 3600000 + 59 * 60000) = 5 * 3600000 := by
  refine ⟨?_, by decide, by decide⟩
  simp only [autoUpdateWallpaperNext, specTodayAtHour, setHours, setMinutes,
    setSeconds, setMilliseconds, setDate, getHours, getMinutes, getSeconds,
    getMilliseconds, getDate]
  split_ifs <;> omega

/-- C6 counterexample: at corrected-now exactly 07:00:00.000 (here
`7 * 3600000`, i.e. day 0 at 07:00:00.000) the morning job's wake time is
today's 07:00:00.000 itself — the roll condition is the strict
`next.getTime() < now.getTime()` — not tomorrow's 07:00:00.000 as the
claim states. -/
theorem scheduleNextMorning_at_seven_counterexample :
    scheduleNextMorningNext (7 * 3600000) = 7 * 3600000 ∧
    scheduleNextMorningNext (7 * 3600000) ≠ 7 * 3600000 + 86400000 := by
  constructor <;> decide

/-- C6 (amended): the morning job's next wake time is today at
07:00:00.000 local, rolled to tomorrow at 07:00:00.000 exactly when
today's 07:00:00.000 is strictly before corrected-now; at corrected-now
exactly 07:00:00.000 the target is today's 07:00:00.000 (so the callback
fires immediately). -/
theorem scheduleNextMorning_next (now : ℤ) :
    scheduleNextMorningNext now =
      if specTodayAtHour now 7 < now then specTodayAtHour now 7 + 86400000
      else specTodayAtHour now 7 := by
  simp only [scheduleNextMorningNext, specTodayAtHour, setHours, setMinutes,
    setSeconds, setMilliseconds, setDate, getHours, getMinutes, getSeconds,
    getMilliseconds, getDate]
  split_ifs <;> omega

/-- C7: under a truncated jitter `0 ≤ jitter < 120000` (the value of
`Math.random() * 2 * 60 * 1000`), the weather job's next wake time is the
current hour at minute 4, second 0, plus the jitter, with the hour
advanced by one exactly when that instant is not in the future or the
current minute is already ≥ 4; in particular at HH:03:00 the target stays
in hour HH and at HH:05:00 it moves to hour HH+1 (shown at 00:03:00 and
00:05:00 of day 0, for every jitter in range). -/
theorem autoUpdateWeather_next (now jitter : ℤ)
    (h0 : 0 ≤ jitter) (h1 : jitter < 120000) :
    (autoUpdateWeatherNext now jitter =
      if ¬ (now < specHourAtMinute4 now jitter) ∨ 4 ≤ getMinutes now
      then specHourAtMinute4 now jitter + 3600000
      else specHourAtMinute4 now jitter) ∧
    autoUpdateWeatherNext (3 * 60000) jitter = 4 * 60000 + jitter ∧
    getHours (autoUpdateWeatherNext (3 * 60000) jitter) = 0 ∧
    autoUpdateWeatherNext (5 * 60000) jitter = 3600000 + 4 * 60000 + jitter ∧
    getHours (autoUpdateWeatherNext (5 * 60000) jitter) = 1 := by
  simp only [autoUpdateWeatherNext, specHourAtMinute4, setHours, setMinutes,
    setSeconds, setMilliseconds, getHours, getMinutes, getSeconds,
    getMilliseconds]
  refine ⟨?_, ?_, ?_, ?_, ?_⟩ <;> split_ifs <;> omega

/-- A fetch run starting at `retryCount = r` with the first success at
attempt `k ≤ 9` delivers that attempt's payload, makes `k + 1 - r`
attempts, and schedules exactly the back-off delays of attempts
`r, …, k-1`, in order. -/
theorem fetch_success_from (outcomes : ℕ → Option α) :
    ∀ n r k p, k - r ≤ n → r ≤ k → k ≤ 9 → outcomes k = some p →
      (∀ j, r ≤ j → j < k → outcomes j = none) →
      getAndProcessJson outcomes r = some p ∧
      fetchAttempts outcomes r = k + 1 - r ∧
      fetchDelays outcomes r = (List.range' r (k - r)).map backoffDelay := by
  intro n
  induction n with
  | zero =>
    intro r k p hn hrk hk hsucc _
    have hrk' : r = k := by omega
    subst hrk'
    unfold getAndProcessJson fetchAttempts fetchDelays
    simp only [hsucc]
    refine ⟨by simp, by omega, by simp⟩
  | succ n ih =>
    intro r k p hn hrk hk hsucc hnone
    by_cases hr : r = k
    · subst hr
      unfold getAndProcessJson fetchAttempts fetchDelays
      simp only [hsucc]
      refine ⟨by simp, by omega, by simp⟩
    · have hrk' : r < k := lt_of_le_of_ne hrk hr
      have hor : outcomes r = none := hnone r le_rfl hrk'
      have hlt : r < 9 := by omega
      obtain ⟨ha, hb, hc⟩ :=
        ih (r + 1) k p (by omega) (by omega) hk hsucc
          (fun j hj1 hj2 => hnone j (by omega) hj2)
      unfold getAndProcessJson fetchAttempts fetchDelays
      simp only [hor, dif_pos hlt]
      refine ⟨ha, by omega, ?_⟩
      have hrange : List.range' r (k - r) = r :: List.range' (r + 1) (k - (r + 1)) := by
        have : k - r = (k - (r + 1)) + 1 := by omega
        rw [this, List.range'_succ]
      rw [hc, hrange, List.map_cons]

/-- A fetch run starting at `retryCount = r ≤ 9` in which every attempt up
to the 9th times out never delivers a payload, makes `10 - r` attempts
(so no attempt beyond `retryCount = 9` is scheduled), and schedules the
back-off delays of attempts `r, …, 8`. -/
theorem fetch_timeout_from (outcomes : ℕ → Option α) :
    ∀ n r, 9 - r ≤ n → r ≤ 9 → (∀ j, r ≤ j → j ≤ 9 → outcomes j = none) →
      getAndProcessJson outcomes r = none ∧
      fetchAttempts outcomes r = 10 - r ∧
      fetchDelays outcomes r = (List.range' r (9 - r)).map backoffDelay := by
  intro n
  induction n with
  | zero =>
    intro r hn hr hnone
    have hr9 : r = 9 := by omega
    subst hr9
    unfold getAndProcessJson fetchAttempts fetchDelays
    simp only [hnone 9 le_rfl le_rfl,
      dif_neg (by omega : ¬ (9 : ℕ) < 9)]
    refine ⟨by simp, by norm_num, by simp⟩
  | succ n ih =>
    intro r hn hr hnone
    by_cases hr9 : r = 9
    · subst hr9
      unfold getAndProcessJson fetchAttempts fetchDelays
      simp only [hnone 9 le_rfl le_rfl,
        dif_neg (by omega : ¬ (9 : ℕ) < 9)]
      refine ⟨by simp, by norm_num, by simp⟩
    · have hlt : r < 9 := by omega
      obtain ⟨ha, hb, hc⟩ :=
        ih (r + 1) (by omega) (by omega) (fun j hj1 hj2 => hnone j (by omega) hj2)
      unfold getAndProcessJson fetchAttempts fetchDelays
      simp only [hnone r le_rfl (by omega), dif_pos hlt]
      refine ⟨ha, by omega, ?_⟩
      have hrange : List.range' r (9 - r) = r :: List.range' (r + 1) (9 - (r + 1)) := by
        have : 9 - r = (9 - (r + 1)) + 1 := by omega
        rw [this, List.range'_succ]
      rw [hc, hrange, List.map_cons]

/-- Every run of `fetchAttempts` makes at least one attempt. -/
theorem fetchAttempts_pos (outcomes : ℕ → Option α) (r : ℕ) :
    1 ≤ fetchAttempts outcomes r := by
  cases hout : outcomes r with
  | some p =>
    unfold fetchAttempts
    simp [hout]
  | none =>
    unfold fetchAttempts
    simp only [hout]
    by_cases h : r < 9
    · rw [dif_pos h]; omega
    · rw [dif_neg h]

/-- A fetch run starting at `retryCount = r ≤ 9` makes at most `10 - r`
attempts, whatever the per-attempt outcomes. -/
theorem fetchAttempts_le_from (outcomes : ℕ → Option α) :
    ∀ n r, 9 - r ≤ n → r ≤ 9 → fetchAttempts outcomes r ≤ 10 - r := by
  intro n
  induction n with
  | zero =>
    intro r hn hr
    have hr9 : r = 9 := by omega
    subst hr9
    cases hout : outcomes 9 with
    | some p =>
      unfold fetchAttempts
      simp [hout]
    | none =>
      unfold fetchAttempts
      simp only [hout, dif_neg (by omega : ¬ (9 : ℕ) < 9)]
      norm_num
  | succ n ih =>
    intro r hn hr
    cases hout : outcomes r with
    | some p =>
      unfold fetchAttempts
      simp only [hout]
      omega
    | none =>
      unfold fetchAttempts
      simp only [hout]
      by_cases h : r < 9
      · rw [dif_pos h]
        have := ih (r + 1) (by omega) (by omega)
        omega
      · rw [dif_neg h]
        omega

/-- The back-off delays scheduled by a fetch run are exactly those of the
attempts it performed except the last: the `j`-th scheduled delay is
`backoffDelay (r + j)`. -/
theorem fetchDelays_eq_from (outcomes : ℕ → Option α) :
    ∀ n r, 9 - r ≤ n →
      fetchDelays outcomes r
        = (List.range' r (fetchAttempts outcomes r - 1)).map backoffDelay := by
  intro n
  induction n with
  | zero =>
    intro r hn
    have hr : ¬ r < 9 := by omega
    cases hout : outcomes r with
    | some p =>
      unfold fetchDelays fetchAttempts
      simp [hout]
    | none =>
      unfold fetchDelays fetchAttempts
      simp only [hout]
      rw [dif_neg hr, dif_neg hr]
      simp
  | succ n ih =>
    intro r hn
    cases hout : outcomes r with
    | some p =>
      unfold fetchDelays fetchAttempts
      simp [hout]
    | none =>
      unfold fetchDelays fetchAttempts
      simp only [hout]
      by_cases h : r < 9
      · rw [dif_pos h, dif_pos h]
        have hpos := fetchAttempts_pos outcomes (r + 1)
        have hrange : List.range' r (1 + fetchAttempts outcomes (r + 1) - 1)
            = r :: List.range' (r + 1) (fetchAttempts outcomes (r + 1) - 1) := by
          have : 1 + fetchAttempts outcomes (r + 1) - 1
              = (fetchAttempts outcomes (r + 1) - 1) + 1 := by omega
          rw [this, List.range'_succ]
        rw [ih (r + 1) (by omega), hrange, List.map_cons]
      · rw [dif_neg h, dif_neg h]
        simp

/-- C3: starting at `retryCount = 0`, `getAndProcessJson` makes at most 10
attempts; the delay scheduled between attempt `k` and attempt `k + 1` is
exactly `2 ^ k * 1000` ms (1 s, 2 s, …, 256 s); if the first success is at
some attempt `k ≤ 9` (the 10th attempt at the latest), the callback fires
exactly once, with that attempt's payload; and after 10 consecutive
timeouts the callback never fires, no 11th attempt is scheduled, and no
error surfaces (the run just ends). -/
theorem getAndProcessJson_retry_spec (outcomes : ℕ → Option α) :
    fetchAttempts outcomes 0 ≤ 10 ∧
    fetchDelays outcomes 0
      = (List.range (fetchAttempts outcomes 0 - 1)).map backoffDelay ∧
    (∀ k, backoffDelay k = 2 ^ k * 1000) ∧
    (∀ k p, k ≤ 9 → outcomes k = some p → (∀ j, j < k → outcomes j = none) →
      getAndProcessJson outcomes 0 = some p ∧ fetchAttempts outcomes 0 = k + 1) ∧
    ((∀ j, j ≤ 9 → outcomes j = none) →
      getAndProcessJson outcomes 0 = none ∧ fetchAttempts outcomes 0 = 10) := by
  refine ⟨?_, ?_, fun k => rfl, fun k p hk hs hnone => ?_, fun hnone => ?_⟩
  · exact fetchAttempts_le_from outcomes 9 0 (by omega) (by omega)
  · rw [fetchDelays_eq_from outcomes 9 0 (by omega), List.range_eq_range']
  · obtain ⟨ha, hb, _⟩ :=
      fetch_success_from outcomes k 0 k p (by omega) (by omega) hk hs
        (fun j _ hj => hnone j hj)
    exact ⟨ha, by omega⟩
  · obtain ⟨ha, hb, _⟩ :=
      fetch_timeout_from outcomes 9 0 (by omega) (by omega)
        (fun j _ hj => hnone j hj)
    exact ⟨ha, by omega⟩

/-- Witness for C3: with timeouts on attempts 0–8 and a success on
attempt 9, the payload is delivered and exactly 10 attempts are made;
with timeouts everywhere, no payload is delivered and exactly 10 attempts
are made. -/
theorem getAndProcessJson_retry_spec_witness :
    (getAndProcessJson (fun r => if r = 9 then some 0 else none) 0 = some 0 ∧
      fetchAttempts (fun r => if r = 9 then some (0 : ℕ) else none) 0 = 10) ∧
    (getAndProcessJson (fun _ => (none : Option ℕ)) 0 = none ∧
      fetchAttempts (fun _ => (none : Option ℕ)) 0 = 10) :=
  ⟨by
    have h := (getAndProcessJson_retry_spec
      (fun r => if r = 9 then some (0 : ℕ) else none)).2.2.2.1 9 0
      (by norm_num) (by norm_num) (by intro j hj; simp; omega)
    exact ⟨h.1, h.2⟩,
   by
    have h := (getAndProcessJson_retry_spec
      (fun _ => (none : Option ℕ))).2.2.2.2 (fun j _ => rfl)
    exact ⟨h.1, h.2⟩⟩

/-- Witness for C7 at `now` = day 0, 00:03:00.000 and `jitter = 0`. -/
theorem autoUpdateWeather_next_witness :
    autoUpdateWeatherNext (3 * 60000) 0 = 4 * 60000 + 0 ∧
    getHours (autoUpdateWeatherNext (3 * 60000) 0) = 0 :=
  ⟨(autoUpdateWeather_next (3 * 60000) 0 (by norm_num) (by norm_num)).2.1,
   (autoUpdateWeather_next (3 * 60000) 0 (by norm_num) (by norm_num)).2.2.1⟩


/-- Decimal length of the numbers `twoDigits` can return: one digit below
10, two digits from 10 to 99. -/
theorem natRepr_length_lt_100 :
    ∀ n : ℕ, n < 100 → (Nat.repr n).length = if n < 10 then 1 else 2 := by
  decide

/-- `TwoDigitsOk` on an actual number unfolds to the three range
conditions. -/
theorem twoDigitsOk_num (q : ℚ) :
    TwoDigitsOk (.num q) ↔ 0 ≤ q ∧ q < 100 ∧ (⌊q⌋ : ℚ) = q := by
  constructor
  · rintro ⟨q', hq, h0, h100, hint⟩
    injection hq with hqq
    subst hqq
    exact ⟨h0, h100, hint⟩
  · rintro ⟨h0, h100, hint⟩
    exact ⟨q, rfl, h0, h100, hint⟩

/-- C9: `twoDigits` returns a value exactly on integral numbers in
`[0, 100)` — for a number outside that range, a non-integral number, or a
non-number argument it throws — and every returned string has exactly two
characters. -/
theorem twoDigits_spec (v : JsNumArg) :
    (twoDigits v = none ↔ ¬ TwoDigitsOk v) ∧
    (∀ s, twoDigits v = some s → s.length = 2) := by
  cases v with
  | nan => exact ⟨by simp [twoDigits, TwoDigitsOk], fun s hs => by simp [twoDigits] at hs⟩
  | posInf => exact ⟨by simp [twoDigits, TwoDigitsOk], fun s hs => by simp [twoDigits] at hs⟩
  | negInf => exact ⟨by simp [twoDigits, TwoDigitsOk], fun s hs => by simp [twoDigits] at hs⟩
  | nonNumber => exact ⟨by simp [twoDigits, TwoDigitsOk], fun s hs => by simp [twoDigits] at hs⟩
  | num q =>
    by_cases hc : q < 0 ∨ 100 ≤ q ∨ (⌊q⌋ : ℚ) ≠ q
    · constructor
      · simp only [twoDigits, if_pos hc, twoDigitsOk_num, true_iff]
        rintro ⟨h0, h100, hint⟩
        rcases hc with hc | hc | hc
        · exact absurd h0 (not_le.2 hc)
        · exact absurd h100 (not_lt.2 hc)
        · exact hc hint
      · intro s hs
        simp only [twoDigits, if_pos hc] at hs
        cases hs
    · push_neg at hc
      obtain ⟨h0, h100, hint⟩ := hc
      have h0' : 0 ≤ q := h0
      constructor
      · simp only [twoDigits, if_neg (by push_neg; exact ⟨h0, h100, hint⟩ :
          ¬ (q < 0 ∨ 100 ≤ q ∨ (⌊q⌋ : ℚ) ≠ q)), twoDigitsOk_num]
        simp [h0', h100, hint]
      · intro s hs
        simp only [twoDigits, if_neg (by push_neg; exact ⟨h0, h100, hint⟩ :
          ¬ (q < 0 ∨ 100 ≤ q ∨ (⌊q⌋ : ℚ) ≠ q))] at hs
        injection hs with hs'
        subst hs'
        have hfl0 : 0 ≤ ⌊q⌋ := Int.floor_nonneg.2 h0'
        have hfl100 : ⌊q⌋ < 100 := by
          rw [Int.floor_lt]
          exact_mod_cast h100
        have htn : (((⌊q⌋).toNat : ℤ)) = ⌊q⌋ := Int.toNat_of_nonneg hfl0
        have hn100 : (⌊q⌋).toNat < 100 := by omega
        have hq10 : q < 10 ↔ (⌊q⌋).toNat < 10 := by
          rw [show ((⌊q⌋).toNat < 10 ↔ ⌊q⌋ < 10) from by omega, Int.floor_lt]
          norm_num
        by_cases h10 : q < 10
        · rw [if_pos h10]
          simp only [String.length_append]
          rw [natRepr_length_lt_100 _ hn100, if_pos (hq10.1 h10)]
          rfl
        · rw [if_neg h10]
          simp only [String.length_append]
          rw [natRepr_length_lt_100 _ hn100, if_neg (fun hlt => h10 (hq10.2 hlt))]
          rfl

/-- Witness for C9: `twoDigits(7)` returns the two-character string
`"07"`. -/
theorem twoDigits_spec_witness :
    twoDigits (.num 7) = some "07" ∧ "07".length = 2 :=
  ⟨by decide, (twoDigits_spec (.num 7)).2 "07" (by decide)⟩

/-- Property lookup on an embedded reminders map mirrors `lookupReminders`
with the message list wrapped as a JSON string array. -/
theorem lookupField_remindersJson (key : String) (m : List (String × List String)) :
    lookupField key (m.map (fun kv => (kv.1, JsonValue.jArr (kv.2.map .jStr))))
      = Option.map (fun v => JsonValue.jArr (v.map .jStr)) (lookupReminders key m) := by
  induction m with
  | nil => rfl
  | cons kv rest ih =>
    obtain ⟨k, v⟩ := kv
    simp only [List.map_cons, lookupField, lookupReminders]
    by_cases hk : k = key
    · rw [if_pos hk, if_pos hk]
      rfl
    · rw [if_neg hk, if_neg hk]
      exact ih

/-- The DOM text of a JSON string array is the underlying string list. -/
theorem jsToStringList_map_jStr (l : List String) :
    jsToStringList (l.map .jStr) = l := by
  induction l with
  | nil => rfl
  | cons s rest ih =>
    simp only [List.map_cons, jsToStringList, jsToString]
    rw [ih]

/-- C8: for the date key built from the corrected date, the morning
callback displays exactly the key's message sequence, in order, when the
key is present with a non-empty sequence; the single placeholder
`"(None)"` when it is present but empty; the single placeholder
`"(Data missing)"` when it is absent; and the single placeholder
`"(Error)"` when the payload is not an object (fails the
`typeof data != "object"` check). -/
theorem doMorningRequest_spec (y mo d : ℕ) :
    (∀ m msgs, lookupReminders (morningKey y mo d) m = some msgs → msgs ≠ [] →
      doMorningRequest (remindersJson m) (morningKey y mo d) = some msgs) ∧
    (∀ m, lookupReminders (morningKey y mo d) m = some [] →
      doMorningRequest (remindersJson m) (morningKey y mo d) = some ["(None)"]) ∧
    (∀ m, lookupReminders (morningKey y mo d) m = none →
      doMorningRequest (remindersJson m) (morningKey y mo d) = some ["(Data missing)"]) ∧
    (∀ data, jsTypeof data ≠ "object" →
      doMorningRequest data (morningKey y mo d) = some ["(Error)"]) := by
  refine ⟨fun m msgs hl hne => ?_, fun m hl => ?_, fun m hl => ?_, fun data ht => ?_⟩
  · simp only [remindersJson, doMorningRequest, jsTypeof, ne_eq,
      not_true_eq_false, if_false, morningDisplay, jsHasProperty, jsGetProperty,
      lookupField_remindersJson, hl]
    simp [displayMessages, jsToStringList_map_jStr, List.length_eq_zero, hne]
  · simp only [remindersJson, doMorningRequest, jsTypeof, ne_eq,
      not_true_eq_false, if_false, morningDisplay, jsHasProperty, jsGetProperty,
      lookupField_remindersJson, hl]
    simp [displayMessages]
  · simp only [remindersJson, doMorningRequest, jsTypeof, ne_eq,
      not_true_eq_false, if_false, morningDisplay, jsHasProperty, jsGetProperty,
      lookupField_remindersJson, hl]
    simp
  · cases data <;> simp_all [doMorningRequest, jsTypeof]

/-- Witness for C8: the spec's concrete example — reminders map
`"20150515" → ["Buy milk"]` and corrected date 2015-05-15 (year 2015,
`getMonth() = 4`, `getDate() = 15`) displays exactly `["Buy milk"]`. -/
theorem doMorningRequest_spec_witness :
    doMorningRequest (remindersJson [("20150515", ["Buy milk"])])
      (morningKey 2015 4 15) = some ["Buy milk"] :=
  (doMorningRequest_spec 2015 4 15).1 [("20150515", ["Buy milk"])] ["Buy milk"]
    (by decide) (by simp)
